import Mathlib

/-!
Verification of the waypoint-based route playback and analytics engine of the
gps-tracker-backend repository.  Python floats are modelled as exact real
numbers (`ℝ`); functions whose float operations are all rational (additions,
multiplications, comparisons, floor) are modelled on `ℚ` so that they stay
executable.  Python `datetime` values are modelled as a record of a calendar
day number plus time-of-day fields; timestamps used by the simulator are
modelled as real-valued instants (seconds).
-/

namespace GpsTracker

/-! ## GeoMath: src/utils/geo_math.py -/

/-- Python `math.radians`. -/
noncomputable def radians (x : ℝ) : ℝ := x * Real.pi / 180

/-- Python `math.atan2 y x` (four-quadrant arctangent). -/
noncomputable def atan2 (y x : ℝ) : ℝ :=
  if 0 < x then Real.arctan (y / x)
  else if x < 0 ∧ 0 ≤ y then Real.arctan (y / x) + Real.pi
  else if x < 0 ∧ y < 0 then Real.arctan (y / x) - Real.pi
  else if 0 < y then Real.pi / 2
  else if y < 0 then -(Real.pi / 2)
  else 0

/-- `haversine_distance_km` of src/utils/geo_math.py (Earth radius 6371.0 km). -/
noncomputable def haversine_distance_km (lat1 lon1 lat2 lon2 : ℝ) : ℝ :=
  let r : ℝ := 6371
  let phi1 := radians lat1
  let phi2 := radians lat2
  let dphi := radians (lat2 - lat1)
  let dlambda := radians (lon2 - lon1)
  let a := Real.sin (dphi / 2) ^ 2 +
    Real.cos phi1 * Real.cos phi2 * Real.sin (dlambda / 2) ^ 2
  let c := 2 * atan2 (Real.sqrt a) (Real.sqrt (1 - a))
  r * c

/-- `calculate_speed_kmh` of src/utils/geo_math.py. -/
noncomputable def calculate_speed_kmh (distance_km hours : ℝ) : ℝ :=
  if hours ≤ 0 then 0 else distance_km / hours

/-- Compass rose used by `heading_from_bearing`. -/
def compassDirs : List String := ["N", "NE", "E", "SE", "S", "SW", "W", "NW"]

/-- `heading_from_bearing` of src/utils/geo_math.py.  The source computes
`dirs[int((bearing + 22.5) // 45) % 8]` on floats; every operation involved
(addition, floor division, modulo) is exact on rationals, so the function is
modelled on `ℚ`.  Python `//` is floor division and `% 8` yields a value in
`[0, 8)`, so the `getD` default is unreachable. -/
def heading_from_bearing (bearing : ℚ) : String :=
  compassDirs.getD (((⌊(bearing + 45/2) / 45⌋) % 8).toNat) "N"

/-! ## Interpolation: src/services/interpolation_service.py -/

/-- `linear_interpolation` of src/services/interpolation_service.py. -/
noncomputable def linear_interpolation (value1 value2 progress : ℝ) : ℝ :=
  if progress ≤ 0 then value1
  else if 1 ≤ progress then value2
  else value1 + (value2 - value1) * progress

/-! ## Time anchoring: src/services/excel_processor.py and
src/api/routers/v1_simulation.py

Python `datetime` values are modelled by a calendar day number (days in the
proleptic Gregorian calendar, as in `datetime.toordinal`) together with the
time-of-day fields.  Timezone information is not modelled: the claims under
study only concern the calendar date and the time-of-day fields. -/

structure PyDateTime where
  day : ℤ
  hour : ℕ
  minute : ℕ
  second : ℕ
  microsecond : ℕ
deriving DecidableEq, Repr

/-- `ANCHOR_WEEK_START` of src/services/excel_processor.py:
`datetime(2024, 1, 1)`, whose proleptic-Gregorian ordinal is 738886. -/
def ANCHOR_WEEK_START : PyDateTime := ⟨738886, 0, 0, 0, 0⟩

/-- `ANCHOR_MONDAY` of src/api/routers/v1_simulation.py: the same calendar
instant `datetime(2024, 1, 1)` (declared separately in the source). -/
def ANCHOR_MONDAY : PyDateTime := ⟨738886, 0, 0, 0, 0⟩

/-- Python `dt + timedelta(days=n)`. -/
def addDays (dt : PyDateTime) (n : ℤ) : PyDateTime := { dt with day := dt.day + n }

/-- Python `base.replace(hour=t.hour, minute=t.minute, second=t.second,
microsecond=t.microsecond)`: keep the date of `base`, take the time-of-day
fields of `t`. -/
def replaceTime (base t : PyDateTime) : PyDateTime :=
  { base with
    hour := t.hour
    minute := t.minute
    second := t.second
    microsecond := t.microsecond }

/-- `_anchor_timestamp` of src/services/excel_processor.py.  A missing (`None`
or `NaN`) timestamp maps to `None`; the day-of-week index is clamped by
`max(0, min(6, dow))` and added to `ANCHOR_WEEK_START`, after which the
time-of-day fields of the input timestamp are written over the result. -/
def anchor_timestamp : Option PyDateTime → ℤ → Option PyDateTime
  | none, _ => none
  | some ts, day_of_week =>
    let dow := max 0 (min 6 day_of_week)
    some (replaceTime (addDays ANCHOR_WEEK_START dow) ts)

/-- `_anchor_current_time` of src/api/routers/v1_simulation.py.  Unlike
`_anchor_timestamp`, the day-of-week index is used unclamped:
`base = ANCHOR_MONDAY + timedelta(days=int(day_of_week or 0))`.  (The
`or 0` only matters for a missing value; the claims quantify over integers.)
The source also copies `tzinfo` from the input; time zones are not modelled. -/
def anchor_current_time (current_time : PyDateTime) (day_of_week : ℤ) : PyDateTime :=
  replaceTime (addDays ANCHOR_MONDAY day_of_week) current_time

/-! ## RouteAnalyzer: src/services/route_calculator.py

Waypoints reach these functions as dictionaries with `latitude`, `longitude`
and an optional `timestamp`; timestamps are modelled as real-valued instants
measured in seconds (mirroring `timedelta.total_seconds`). -/

structure Waypoint where
  latitude : ℝ
  longitude : ℝ
  timestamp : Option ℝ

structure RouteStats where
  total_distance_km : ℝ
  max_speed_kmh : ℝ
  average_speed_kmh : ℝ

/-- Haversine distance between two waypoints' coordinates. -/
noncomputable def wpDist (p1 p2 : Waypoint) : ℝ :=
  haversine_distance_km p1.latitude p1.longitude p2.latitude p2.longitude

/-- Loop body of `calculate_route_statistics`: walk the waypoint list pairwise
(`prev` is `waypoints[i-1]`), accumulating the running distance total and the
list of per-pair instantaneous speeds.  A speed is recorded only when both
timestamps are present and `t2 > t1` (Python `if t1 and t2 and t2 > t1`;
`datetime` objects are always truthy, so the test is a missing-value check). -/
noncomputable def statsAux (prev : Waypoint) :
    List Waypoint → ℝ → List ℝ → ℝ × List ℝ
  | [], total, speeds => (total, speeds)
  | p2 :: rest, total, speeds =>
    let dist := wpDist prev p2
    let speeds' :=
      match prev.timestamp, p2.timestamp with
      | some t1, some t2 =>
        if t1 < t2 then
          speeds ++ [calculate_speed_kmh dist ((t2 - t1) / 3600)]
        else speeds
      | _, _ => speeds
    statsAux p2 rest (total + dist) speeds'

/-- Python `max(speeds)` for a nonempty list (0 for the empty list, which the
source guards by `if speeds else 0.0`). -/
noncomputable def listMax : List ℝ → ℝ
  | [] => 0
  | h :: t => t.foldl max h

/-- `calculate_route_statistics` of src/services/route_calculator.py. -/
noncomputable def calculate_route_statistics (waypoints : List Waypoint) : RouteStats :=
  if waypoints.length < 2 then
    { total_distance_km := 0, max_speed_kmh := 0, average_speed_kmh := 0 }
  else
    match waypoints with
    | [] => { total_distance_km := 0, max_speed_kmh := 0, average_speed_kmh := 0 }
    | w :: rest =>
      let res := statsAux w rest 0 []
      let speeds := res.2
      let avg := if speeds.isEmpty then 0 else speeds.sum / speeds.length
      let mx := if speeds.isEmpty then 0 else listMax speeds
      { total_distance_km := res.1, max_speed_kmh := mx, average_speed_kmh := avg }

structure SpeedBins where
  bin0_20 : ℕ
  bin20_40 : ℕ
  bin40_60 : ℕ
  bin60_plus : ℕ
deriving DecidableEq, Repr

/-- Loop body of `speed_distribution`: the Python `if/elif/elif/else` chain on
`s < 20`, `s < 40`, `s < 60`. -/
noncomputable def speedBinsAux : List ℝ → SpeedBins → SpeedBins
  | [], bins => bins
  | s :: rest, bins =>
    let bins' :=
      if s < 20 then { bins with bin0_20 := bins.bin0_20 + 1 }
      else if s < 40 then { bins with bin20_40 := bins.bin20_40 + 1 }
      else if s < 60 then { bins with bin40_60 := bins.bin40_60 + 1 }
      else { bins with bin60_plus := bins.bin60_plus + 1 }
    speedBinsAux rest bins'

/-- `speed_distribution` of src/services/route_calculator.py. -/
noncomputable def speed_distribution (speeds : List ℝ) : SpeedBins :=
  speedBinsAux speeds ⟨0, 0, 0, 0⟩

/-! ## PositionSimulator: src/services/position_simulator.py

`simulate_position` first drops waypoints whose timestamp is `None`; the
remaining waypoints therefore carry a definite timestamp, modelled by
`TWaypoint`.  The Google-Maps road-path lookup `_road_path` is external
network I/O; it is modelled as an injected optional polyline (`Option (List
Point)`), exactly the shape `_road_path` can return (`None` or a list of
coordinate dictionaries — the source never returns an empty list, but the
model also covers that case through the `if road_path:` truthiness test). -/

structure Point where
  latitude : ℝ
  longitude : ℝ

structure TWaypoint where
  latitude : ℝ
  longitude : ℝ
  ts : ℝ

/-- Key order used by `sorted(waypoints, key=lambda w: w["timestamp"])`. -/
def tsLe (a b : TWaypoint) : Prop := a.ts ≤ b.ts

noncomputable instance : DecidableRel tsLe := fun a b => inferInstanceAs (Decidable (a.ts ≤ b.ts))

instance : IsTotal TWaypoint tsLe := ⟨fun a b => le_total a.ts b.ts⟩

instance : IsTrans TWaypoint tsLe := ⟨fun _ _ _ h1 h2 => le_trans h1 h2⟩

/-- Python `sorted` is a stable sort by the given key; a stable insertion
sort computes the same list. -/
noncomputable def sortWps (l : List TWaypoint) : List TWaypoint :=
  l.insertionSort tsLe

/-- Progress formula of `_find_current_segment`:
`0.0 if total <= 0 else max(0.0, min(1.0, elapsed / total))`. -/
noncomputable def segProgress (t1 t2 q : ℝ) : ℝ :=
  if t2 - t1 ≤ 0 then 0 else max 0 (min 1 ((q - t1) / (t2 - t1)))

/-- Scan loop of `_find_current_segment` (lines 22–33): walk adjacent pairs of
the sorted list, returning the first pair bracketing `q` together with its
index and fractional progress.  The source's `if not t1 or not t2: continue`
guard is unreachable: the only caller filters out missing timestamps before
the sort (and Python's sort would itself fail on a `None` timestamp). -/
noncomputable def findSegAux (q : ℝ) : List TWaypoint → ℕ → Option (ℕ × TWaypoint × TWaypoint × ℝ)
  | w1 :: w2 :: rest, i =>
    if w1.ts ≤ q ∧ q ≤ w2.ts then some (i, w1, w2, segProgress w1.ts w2.ts q)
    else findSegAux q (w2 :: rest) (i + 1)
  | _, _ => none

/-- `_find_current_segment` of src/services/position_simulator.py. -/
noncomputable def find_current_segment (waypoints : List TWaypoint) (current_time : ℝ) :
    Option (ℕ × TWaypoint × TWaypoint × ℝ) :=
  findSegAux current_time (sortWps waypoints) 0

/-- `_interpolate_position` of src/services/position_simulator.py. -/
noncomputable def interpolate_position (w1 w2 : TWaypoint) (progress : ℝ) : Point :=
  { latitude := linear_interpolation w1.latitude w2.latitude progress
    longitude := linear_interpolation w1.longitude w2.longitude progress }

/-- Haversine distance between two path points. -/
noncomputable def ptDist (p1 p2 : Point) : ℝ :=
  haversine_distance_km p1.latitude p1.longitude p2.latitude p2.longitude

/-- The per-edge `segments` list of `_position_along_path`: pairs
`(path[i-1], path[i])` with their haversine distances. -/
noncomputable def pathSegments (path : List Point) : List (ℝ × Point × Point) :=
  (path.zip path.tail).map fun se => (ptDist se.1 se.2, se.1, se.2)

/-- Total path distance accumulated by the `_position_along_path` loop. -/
noncomputable def pathTotalDistance (path : List Point) : ℝ :=
  ((pathSegments path).map fun s => s.1).sum

/-- Walking loop of `_position_along_path` (lines 103–115): skip zero-length
edges, stop inside the edge where the accumulated distance reaches the target
and interpolate within it by the leftover ratio, else finish at the path end
having traveled the whole distance. -/
noncomputable def pathWalk (total target : ℝ) :
    List (ℝ × Point × Point) → ℝ → Point → Point × ℝ × ℝ
  | [], _, current => (current, total, total)
  | (dist, s, e) :: rest, traveled, _ =>
    if dist ≤ 0 then pathWalk total target rest traveled e
    else if target ≤ traveled + dist then
      let ratio := (target - traveled) / dist
      ({ latitude := s.latitude + (e.latitude - s.latitude) * ratio
         longitude := s.longitude + (e.longitude - s.longitude) * ratio },
        total, traveled + ratio * dist)
    else pathWalk total target rest (traveled + dist) e

/-- `_position_along_path` of src/services/position_simulator.py.  Returns
`(position, total_path_distance_km, distance_traveled_km)`.  A path with
fewer than 2 points yields its last point (`path[-1]`, with an all-zero
default for the empty path), as does a path whose total distance is `<= 0`. -/
noncomputable def position_along_path (path : List Point) (progress : ℝ) :
    Point × ℝ × ℝ :=
  if path.length < 2 then (path.getLastD ⟨0, 0⟩, 0, 0)
  else
    let total := pathTotalDistance path
    if total ≤ 0 then (path.getLastD ⟨0, 0⟩, 0, 0)
    else
      let target := max 0 (min 1 progress) * total
      pathWalk total target (pathSegments path) 0 (path.headD ⟨0, 0⟩)

/-- Lines 148–159 of `simulate_position`: dispatch between path mode and
linear mode.  `if road_path:` is Python truthiness, so both `None` and an
empty list select linear mode.  In path mode a non-positive returned distance
is replaced by the waypoints' haversine distance (`if distance_km is None or
distance_km <= 0`), while the traveled distance is kept; in linear mode both
distances are haversine-derived with `distance_completed = distance * progress`.
Returns `(position, distance_km, distance_completed_km)`. -/
noncomputable def segmentInterpolation (w1 w2 : TWaypoint) (progress : ℝ)
    (roadPath : Option (List Point)) : Point × ℝ × ℝ :=
  let base := haversine_distance_km w1.latitude w1.longitude w2.latitude w2.longitude
  match roadPath with
  | some path =>
    if path.isEmpty then
      (interpolate_position w1 w2 progress, base, base * progress)
    else
      let res := position_along_path path progress
      let dk := if res.2.1 ≤ 0 then base else res.2.1
      (res.1, dk, res.2.2)
  | none => (interpolate_position w1 w2 progress, base, base * progress)

/-- Python `round` to the nearest integer with ties to even (banker's
rounding). -/
noncomputable def roundHalfEven (x : ℝ) : ℤ :=
  if Int.fract x < 1/2 then ⌊x⌋
  else if 1/2 < Int.fract x then ⌊x⌋ + 1
  else if Even ⌊x⌋ then ⌊x⌋ else ⌊x⌋ + 1

/-- Python `round(x, 2)`. -/
noncomputable def pyRound2 (x : ℝ) : ℝ := (roundHalfEven (100 * x) : ℝ) / 100

/-- The `route_progress` portion of the `simulate_position` response. -/
structure RouteProgress where
  overall_progress_percent : ℝ
  completed_waypoints : ℕ
  total_waypoints : ℕ
  remaining_waypoints : ℤ

/-- Response envelope of `simulate_position`, restricted to the fields the
verified properties are about: `status`, `position` and `route_progress`.
The `message`, `movement_data` (other than the speed used for the
moving/parked classification), `eta` and `distance` entries of the response
dictionary are derived alongside but are not modelled as output fields. -/
structure SimResult where
  status : String
  position : Option Point := none
  route_progress : Option RouteProgress := none

/-- Line 121 of `simulate_position`: drop the waypoints whose timestamp is
`None`; the survivors carry definite timestamps. -/
def keptWaypoints (waypoints : List Waypoint) : List TWaypoint :=
  waypoints.filterMap fun w =>
    w.timestamp.map fun t => TWaypoint.mk w.latitude w.longitude t

/-- Lines 147–211 of `simulate_position`: the moving/parked response built
once a bracketing segment `(idx, w1, w2, progress)` has been located. -/
noncomputable def movingOrParked (sorted : List TWaypoint) (idx : ℕ)
    (w1 w2 : TWaypoint) (progress : ℝ) (roadPath : Option (List Point)) : SimResult :=
  let res := segmentInterpolation w1 w2 progress roadPath
  let segment_seconds := w2.ts - w1.ts
  let hours := if segment_seconds = 0 then 0 else segment_seconds / 3600
  let speed := calculate_speed_kmh res.2.1 hours
  let n := sorted.length
  let overall := ((idx : ℝ) + progress) / (max 1 (n - 1) : ℕ) * 100
  { status := if 0 < speed then "moving" else "parked"
    position := some res.1
    route_progress := some
      { overall_progress_percent := pyRound2 overall
        completed_waypoints := idx
        total_waypoints := n
        remaining_waypoints := max 0 ((n : ℤ) - (idx : ℤ)) } }

/-- Lines 124–211 of `simulate_position`: the branch taken on the non-empty,
sorted waypoint list. -/
noncomputable def simulateSorted (sorted : List TWaypoint) (current_time : ℝ)
    (roadPath : Option (List Point)) : SimResult :=
  let first := sorted.headD ⟨0, 0, 0⟩
  let last := sorted.getLastD ⟨0, 0, 0⟩
  if current_time < first.ts then
    { status := "not_started"
      position := some ⟨first.latitude, first.longitude⟩ }
  else if last.ts < current_time then
    { status := "completed"
      position := some ⟨last.latitude, last.longitude⟩ }
  else
    match find_current_segment sorted current_time with
    | none =>
      { status := "inactive"
        position := some ⟨first.latitude, first.longitude⟩ }
    | some (idx, w1, w2, progress) =>
      movingOrParked sorted idx w1 w2 progress roadPath

/-- `simulate_position` of src/services/position_simulator.py.  The two
early `if not waypoints` checks (before and after dropping timestamp-less
waypoints) both produce the bare `inactive` response and are modelled by the
single emptiness test on the filtered list. -/
noncomputable def simulate_position (waypoints : List Waypoint) (current_time : ℝ)
    (roadPath : Option (List Point)) : SimResult :=
  match keptWaypoints waypoints with
  | [] => { status := "inactive" }
  | k :: ks => simulateSorted (sortWps (k :: ks)) current_time roadPath

/-! ## Spec-side definitions

These definitions follow the specification's words rather than the source
code; the theorems below compare the source translations against them. -/

/-- Leftmost waypoint with the earliest timestamp (the spec's "first
(earliest-timestamp) waypoint"): ties are resolved towards the front of the
list, as a stable sort does. -/
noncomputable def firstEarliest : List TWaypoint → Option TWaypoint
  | [] => none
  | w :: t =>
    match firstEarliest t with
    | none => some w
    | some m => if w.ts ≤ m.ts then some w else some m

/-- Rightmost waypoint with the latest timestamp (the spec's "last
waypoint"): ties are resolved towards the back of the list, as a stable sort
does. -/
noncomputable def lastLatest : List TWaypoint → Option TWaypoint
  | [] => none
  | w :: t =>
    match lastLatest t with
    | none => some w
    | some m => if m.ts < w.ts then some w else some m

/-- Spec-side total route distance: haversine distance summed over
consecutive waypoint pairs in input order. -/
noncomputable def specTotalDistance (wps : List Waypoint) : ℝ :=
  ((wps.zip wps.tail).map fun pr => wpDist pr.1 pr.2).sum

/-- Spec-side per-pair instantaneous speeds: one speed for each consecutive
pair whose two timestamps are present with `t2 > t1`. -/
noncomputable def specSegmentSpeeds (wps : List Waypoint) : List ℝ :=
  (wps.zip wps.tail).filterMap fun pr =>
    match pr.1.timestamp, pr.2.timestamp with
    | some t1, some t2 =>
      if t1 < t2 then some (calculate_speed_kmh (wpDist pr.1 pr.2) ((t2 - t1) / 3600))
      else none
    | _, _ => none

/-- The spec's "adjacent pair `(w[j], w[j+1])` brackets the query time". -/
def bracketAt (l : List TWaypoint) (q : ℝ) (j : ℕ) : Prop :=
  ∃ u v, l.get? j = some u ∧ l.get? (j + 1) = some v ∧ u.ts ≤ q ∧ q ≤ v.ts

/-! ## C1: heading_from_bearing -/

/-- C1 counterexample: the claim asserts `heading_from_bearing(44.9) = "N"`,
but the source's centered buckets put 44.9° in the NE bucket `[22.5, 67.5)`. -/
theorem heading_44_9_is_NE_not_N :
    heading_from_bearing (449/10) = "NE" ∧ heading_from_bearing (449/10) ≠ "N" := by
  have hf : ⌊((449:ℚ)/10 + 45/2) / 45⌋ = 1 := by
    rw [Int.floor_eq_iff] <;> norm_num
  refine ⟨?_, ?_⟩ <;> simp [heading_from_bearing, hf, compassDirs]

/-- C1 (amended): `heading_from_bearing` is an 8-way compass rose with
45°-wide buckets centered on the compass points, so that exactly 0° maps to
"N" (the "N" bucket being `[0°, 22.5°) ∪ [337.5°, 360°)` within a turn);
for the inputs 0, 44.9 and 45 it returns "N", "NE" and "NE" respectively. -/
theorem heading_from_bearing_rose :
    heading_from_bearing 0 = "N" ∧
    heading_from_bearing (449/10) = "NE" ∧
    heading_from_bearing 45 = "NE" ∧
    (∀ b : ℚ, 0 ≤ b → b < 45/2 → heading_from_bearing b = "N") ∧
    (∀ b : ℚ, 675/2 ≤ b → b < 360 → heading_from_bearing b = "N") ∧
    (∀ b : ℚ, 45/2 ≤ b → b < 135/2 → heading_from_bearing b = "NE") := by
  have h0 : heading_from_bearing 0 = "N" := by
    have hf : ⌊((45:ℚ)/2) / 45⌋ = 0 := by
      rw [Int.floor_eq_iff] <;> norm_num
    simp [heading_from_bearing, hf, compassDirs]
  have h449 : heading_from_bearing (449/10) = "NE" := heading_44_9_is_NE_not_N.1
  have h45 : heading_from_bearing 45 = "NE" := by
    have hf : ⌊((45:ℚ) + 45/2) / 45⌋ = 1 := by
      rw [Int.floor_eq_iff] <;> norm_num
    simp [heading_from_bearing, hf, compassDirs]
  refine ⟨h0, h449, h45, ?_, ?_, ?_⟩
  · intro b hb0 hb1
    have hf : ⌊(b + 45/2) / 45⌋ = 0 := by
      rw [Int.floor_eq_iff]
      push_cast
      constructor
      · positivity
      · rw [div_lt_iff₀ (by norm_num : (0:ℚ) < 45)]
        linarith
    simp [heading_from_bearing, hf, compassDirs]
  · intro b hb0 hb1
    have hf : ⌊(b + 45/2) / 45⌋ = 8 := by
      rw [Int.floor_eq_iff]
      push_cast
      constructor
      · rw [le_div_iff₀ (by norm_num : (0:ℚ) < 45)]
        linarith
      · rw [div_lt_iff₀ (by norm_num : (0:ℚ) < 45)]
        linarith
    simp [heading_from_bearing, hf, compassDirs]
  · intro b hb0 hb1
    have hf : ⌊(b + 45/2) / 45⌋ = 1 := by
      rw [Int.floor_eq_iff]
      push_cast
      constructor
      · rw [le_div_iff₀ (by norm_num : (0:ℚ) < 45)]
        linarith
      · rw [div_lt_iff₀ (by norm_num : (0:ℚ) < 45)]
        linarith
    simp [heading_from_bearing, hf, compassDirs]

/-- C1 witness: the bucket lemmas of `heading_from_bearing_rose` applied at
concrete bearings. -/
theorem heading_from_bearing_rose_witness :
    heading_from_bearing 10 = "N" ∧ heading_from_bearing 340 = "N" ∧
    heading_from_bearing 30 = "NE" :=
  ⟨heading_from_bearing_rose.2.2.2.1 10 (by norm_num) (by norm_num),
   heading_from_bearing_rose.2.2.2.2.1 340 (by norm_num) (by norm_num),
   heading_from_bearing_rose.2.2.2.2.2 30 (by norm_num) (by norm_num)⟩

/-! ## C3: time anchoring and day-of-week clamping -/

/-- C3 counterexample: the claim asserts that the time-anchoring operation
clamps `day_of_week` to `[0, 6]`, but the simulation router's
`_anchor_current_time` adds the day index unclamped: anchoring at
`day_of_week = 9` lands 9 days past the reference Monday instead of being
clamped to 6. -/
theorem anchor_current_time_no_clamp :
    anchor_current_time ⟨999, 8, 30, 0, 0⟩ 9 ≠ anchor_current_time ⟨999, 8, 30, 0, 0⟩ 6 ∧
    (anchor_current_time ⟨999, 8, 30, 0, 0⟩ 9).day = ANCHOR_MONDAY.day + 9 := by
  constructor <;> decide

/-- C3 (amended): the Excel processor's `_anchor_timestamp` clamps
`day_of_week` to `[0, 6]` (out-of-range values map to the nearest bound, not
wrapping) before computing `reference_week_start + day_of_week` days, and
overwrites only the time-of-day fields from the input timestamp, discarding
its calendar date; the simulation router's `_anchor_current_time` performs
the same date replacement and time-of-day copy but applies no clamping,
adding `day_of_week` days directly. -/
theorem anchor_operations_spec (ts : PyDateTime) (d : ℤ) :
    (6 < d → anchor_timestamp (some ts) d = anchor_timestamp (some ts) 6) ∧
    (d < 0 → anchor_timestamp (some ts) d = anchor_timestamp (some ts) 0) ∧
    anchor_timestamp (some ts) d =
      some ⟨ANCHOR_WEEK_START.day + max 0 (min 6 d),
        ts.hour, ts.minute, ts.second, ts.microsecond⟩ ∧
    (∀ d' : ℤ, anchor_timestamp (some { ts with day := d' }) d =
      anchor_timestamp (some ts) d) ∧
    anchor_current_time ts d =
      ⟨ANCHOR_MONDAY.day + d, ts.hour, ts.minute, ts.second, ts.microsecond⟩ ∧
    (∀ d' : ℤ, anchor_current_time { ts with day := d' } d = anchor_current_time ts d) := by
  refine ⟨?_, ?_, ?_, ?_, ?_, ?_⟩
  · intro h
    have hd : max 0 (min 6 d) = max 0 (min 6 (6:ℤ)) := by omega
    simp only [anchor_timestamp, hd]
  · intro h
    have hd : max 0 (min 6 d) = max 0 (min 6 (0:ℤ)) := by omega
    simp only [anchor_timestamp, hd]
  · simp [anchor_timestamp, replaceTime, addDays]
  · intro d'
    simp [anchor_timestamp, replaceTime, addDays]
  · simp [anchor_current_time, replaceTime, addDays]
  · intro d'
    simp [anchor_current_time, replaceTime, addDays]

/-- C3 witness: the clamping lemmas of `anchor_operations_spec` applied at a
concrete timestamp, with `day_of_week = 9` clamping to 6 and `-3` to 0. -/
theorem anchor_operations_spec_witness :
    ((6:ℤ) < 9 ∧
      anchor_timestamp (some ⟨738000, 7, 45, 30, 123⟩) 9 =
        anchor_timestamp (some ⟨738000, 7, 45, 30, 123⟩) 6) ∧
    ((-3:ℤ) < 0 ∧
      anchor_timestamp (some ⟨738000, 7, 45, 30, 123⟩) (-3) =
        anchor_timestamp (some ⟨738000, 7, 45, 30, 123⟩) 0) :=
  ⟨⟨by decide, (anchor_operations_spec ⟨738000, 7, 45, 30, 123⟩ 9).1 (by decide)⟩,
   ⟨by decide, (anchor_operations_spec ⟨738000, 7, 45, 30, 123⟩ (-3)).2.1 (by decide)⟩⟩

/-! ## C8: anchoring depends only on weekday and time-of-day -/

/-- C8: for a fixed day-of-week index, two timestamps sharing the same
time-of-day fields but lying on distinct calendar dates anchor to an
identical instant — `_anchor_timestamp` never reads the input's calendar
date. -/
theorem anchor_timestamp_date_independent (d : ℤ) (t1 t2 : PyDateTime)
    (hh : t1.hour = t2.hour) (hm : t1.minute = t2.minute)
    (hs : t1.second = t2.second) (hus : t1.microsecond = t2.microsecond)
    (hdate : t1.day ≠ t2.day) :
    anchor_timestamp (some t1) d = anchor_timestamp (some t2) d := by
  simp [anchor_timestamp, replaceTime, addDays, hh, hm, hs, hus]

/-- C8 witness: `anchor_timestamp_date_independent` applied to two concrete
timestamps on different days with the same time-of-day. -/
theorem anchor_timestamp_date_independent_witness :
    anchor_timestamp (some ⟨738000, 9, 15, 0, 5⟩) 2 =
      anchor_timestamp (some ⟨739123, 9, 15, 0, 5⟩) 2 :=
  anchor_timestamp_date_independent 2 _ _ rfl rfl rfl rfl (by decide)

/-! ## C7: linear interpolation endpoint exactness -/

/-- C7: `linear_interpolation` returns exactly its first endpoint for
`progress <= 0` and exactly its second for `progress >= 1` (no floating-point
drift), and `a + (b - a) * p` strictly in between; consequently
`_interpolate_position` reproduces the from-waypoint's coordinate exactly at
progress 0 and the to-waypoint's exactly at progress 1. -/
theorem linear_interpolation_endpoints (a b p : ℝ) (w1 w2 : TWaypoint) :
    (p ≤ 0 → linear_interpolation a b p = a) ∧
    (1 ≤ p → linear_interpolation a b p = b) ∧
    (0 < p → p < 1 → linear_interpolation a b p = a + (b - a) * p) ∧
    interpolate_position w1 w2 0 = ⟨w1.latitude, w1.longitude⟩ ∧
    interpolate_position w1 w2 1 = ⟨w2.latitude, w2.longitude⟩ := by
  refine ⟨?_, ?_, ?_, ?_, ?_⟩
  · intro h
    simp [linear_interpolation, h]
  · intro h
    have h0 : ¬ p ≤ 0 := by linarith
    simp [linear_interpolation, h, h0]
  · intro h0 h1
    have h0' : ¬ p ≤ 0 := by linarith
    have h1' : ¬ 1 ≤ p := by linarith
    simp [linear_interpolation, h0', h1']
  · simp [interpolate_position, linear_interpolation]
  · simp [interpolate_position, linear_interpolation]

/-- C7 witness: `linear_interpolation_endpoints` applied at concrete values
and waypoints. -/
theorem linear_interpolation_endpoints_witness :
    linear_interpolation 3 5 0 = 3 ∧ linear_interpolation 3 5 1 = 5 ∧
    linear_interpolation 3 5 (1/4) = 3 + (5 - 3) * (1/4) ∧
    interpolate_position ⟨10, 20, 0⟩ ⟨30, 40, 1⟩ 0 = ⟨10, 20⟩ :=
  ⟨(linear_interpolation_endpoints 3 5 0 ⟨0,0,0⟩ ⟨0,0,0⟩).1 le_rfl,
   (linear_interpolation_endpoints 3 5 1 ⟨0,0,0⟩ ⟨0,0,0⟩).2.1 le_rfl,
   (linear_interpolation_endpoints 3 5 (1/4) ⟨0,0,0⟩ ⟨0,0,0⟩).2.2.1
     (by norm_num) (by norm_num),
   (linear_interpolation_endpoints 0 0 0 ⟨10, 20, 0⟩ ⟨30, 40, 1⟩).2.2.2.1⟩

/-! ## C9: speed_distribution -/

/-- Invariant of the `speed_distribution` loop: each bin grows by the number
of speeds falling in its half-open range. -/
theorem speedBinsAux_spec (l : List ℝ) (b : SpeedBins) :
    speedBinsAux l b =
      ⟨b.bin0_20 + l.countP (fun s => decide (s < 20)),
       b.bin20_40 + l.countP (fun s => decide (20 ≤ s ∧ s < 40)),
       b.bin40_60 + l.countP (fun s => decide (40 ≤ s ∧ s < 60)),
       b.bin60_plus + l.countP (fun s => decide (60 ≤ s))⟩ := by
  induction l generalizing b with
  | nil => simp [speedBinsAux]
  | cons s rest ih =>
    rw [speedBinsAux, ih]
    by_cases h1 : s < 20
    · have h2 : ¬ (20 ≤ s ∧ s < 40) := by rintro ⟨h, _⟩; linarith
      have h3 : ¬ (40 ≤ s ∧ s < 60) := by rintro ⟨h, _⟩; linarith
      have h4 : ¬ (60 ≤ s) := by linarith
      simp [List.countP_cons, h1, h2, h3, h4]
      omega
    · by_cases h2 : s < 40
      · have h2' : 20 ≤ s ∧ s < 40 := ⟨by linarith, h2⟩
        have h3 : ¬ (40 ≤ s ∧ s < 60) := by rintro ⟨h, _⟩; linarith
        have h4 : ¬ (60 ≤ s) := by linarith
        simp [List.countP_cons, h1, h2, h2', h3, h4]
        omega
      · by_cases h3 : s < 60
        · have h3' : 40 ≤ s ∧ s < 60 := ⟨by linarith, h3⟩
          have h2' : ¬ (20 ≤ s ∧ s < 40) := by rintro ⟨_, h⟩; linarith
          have h4 : ¬ (60 ≤ s) := by linarith
          simp [List.countP_cons, h1, h2, h2', h3, h3', h4]
          omega
        · have h4 : 60 ≤ s := by linarith
          have h2' : ¬ (20 ≤ s ∧ s < 40) := by rintro ⟨_, h⟩; linarith
          have h3' : ¬ (40 ≤ s ∧ s < 60) := by rintro ⟨_, h⟩; linarith
          simp [List.countP_cons, h1, h2, h2', h3, h3', h4]
          omega

/-- C9: `speed_distribution` counts each input speed in exactly one of the
half-open bins `[0,20)`, `[20,40)`, `[40,60)`, `[60,∞)` (the first bin also
absorbing any negative speed, which the `s < 20` branch does not exclude);
the bin counts always sum to the number of inputs, and the input
`[10, 25, 45, 65]` puts exactly one speed in each bin. -/
theorem speed_distribution_bins (speeds : List ℝ) :
    speed_distribution [10, 25, 45, 65] = ⟨1, 1, 1, 1⟩ ∧
    (speed_distribution speeds).bin0_20 = speeds.countP (fun s => decide (s < 20)) ∧
    (speed_distribution speeds).bin20_40 = speeds.countP (fun s => decide (20 ≤ s ∧ s < 40)) ∧
    (speed_distribution speeds).bin40_60 = speeds.countP (fun s => decide (40 ≤ s ∧ s < 60)) ∧
    (speed_distribution speeds).bin60_plus = speeds.countP (fun s => decide (60 ≤ s)) ∧
    (speed_distribution speeds).bin0_20 + (speed_distribution speeds).bin20_40 +
      (speed_distribution speeds).bin40_60 + (speed_distribution speeds).bin60_plus =
      speeds.length := by
  have hgen : ∀ l : List ℝ, speed_distribution l =
      ⟨l.countP (fun s => decide (s < 20)),
       l.countP (fun s => decide (20 ≤ s ∧ s < 40)),
       l.countP (fun s => decide (40 ≤ s ∧ s < 60)),
       l.countP (fun s => decide (60 ≤ s))⟩ := by
    intro l
    rw [speed_distribution, speedBinsAux_spec]
    simp
  have hsum : ∀ l : List ℝ,
      (speed_distribution l).bin0_20 + (speed_distribution l).bin20_40 +
        (speed_distribution l).bin40_60 + (speed_distribution l).bin60_plus = l.length := by
    intro l
    induction l with
    | nil => simp [hgen]
    | cons s rest ih =>
      rw [hgen] at ih ⊢
      simp only [List.countP_cons]
      by_cases h1 : s < 20
      · have h2 : ¬ (20 ≤ s ∧ s < 40) := by rintro ⟨h, _⟩; linarith
        have h3 : ¬ (40 ≤ s ∧ s < 60) := by rintro ⟨h, _⟩; linarith
        have h4 : ¬ (60 ≤ s) := by linarith
        simp [List.countP_cons, h1, h2, h3, h4] at ih ⊢
        omega
      · by_cases h2 : s < 40
        · have h2' : 20 ≤ s ∧ s < 40 := ⟨by linarith, h2⟩
          have h3 : ¬ (40 ≤ s ∧ s < 60) := by rintro ⟨h, _⟩; linarith
          have h4 : ¬ (60 ≤ s) := by linarith
          simp [List.countP_cons, h1, h2, h2', h3, h4] at ih ⊢
          omega
        · by_cases h3 : s < 60
          · have h3' : 40 ≤ s ∧ s < 60 := ⟨by linarith, h3⟩
            have h2' : ¬ (20 ≤ s ∧ s < 40) := by rintro ⟨_, h⟩; linarith
            have h4 : ¬ (60 ≤ s) := by linarith
            simp [List.countP_cons, h1, h2, h2', h3, h3', h4] at ih ⊢
            omega
          · have h4 : 60 ≤ s := by linarith
            have h2' : ¬ (20 ≤ s ∧ s < 40) := by rintro ⟨_, h⟩; linarith
            have h3' : ¬ (40 ≤ s ∧ s < 60) := by rintro ⟨_, h⟩; linarith
            simp [List.countP_cons, h1, h2, h2', h3, h3', h4] at ih ⊢
            omega
  refine ⟨?_, ?_, ?_, ?_, ?_, hsum speeds⟩
  · rw [hgen]
    norm_num [List.countP_cons]
  · rw [hgen]
  · rw [hgen]
  · rw [hgen]
  · rw [hgen]

/-! ## C4: calculate_route_statistics -/

/-- Invariant of the `calculate_route_statistics` loop: starting from the
accumulators `(t0, s0)`, the loop adds the pairwise distances of
`prev :: l` in input order and appends its qualifying pairwise speeds. -/
theorem statsAux_spec (l : List Waypoint) (prev : Waypoint) (t0 : ℝ) (s0 : List ℝ) :
    statsAux prev l t0 s0 =
      (t0 + specTotalDistance (prev :: l), s0 ++ specSegmentSpeeds (prev :: l)) := by
  induction l generalizing prev t0 s0 with
  | nil => simp [statsAux, specTotalDistance, specSegmentSpeeds]
  | cons p2 rest ih =>
    rw [statsAux, ih]
    have htot : specTotalDistance (prev :: p2 :: rest) =
        wpDist prev p2 + specTotalDistance (p2 :: rest) := by
      simp [specTotalDistance]
    have hspd : specSegmentSpeeds (prev :: p2 :: rest) =
        (match prev.timestamp, p2.timestamp with
          | some t1, some t2 =>
            if t1 < t2 then
              [calculate_speed_kmh (wpDist prev p2) ((t2 - t1) / 3600)]
            else []
          | _, _ => ([] : List ℝ)) ++ specSegmentSpeeds (p2 :: rest) := by
      rw [specSegmentSpeeds, specSegmentSpeeds]
      match h1 : prev.timestamp, h2 : p2.timestamp with
      | some t1, some t2 =>
        by_cases hlt : t1 < t2 <;> simp [List.filterMap_cons, h1, h2, hlt]
      | some t1, none => simp [List.filterMap_cons, h1, h2]
      | none, some t2 => simp [List.filterMap_cons, h1, h2]
      | none, none => simp [List.filterMap_cons, h1, h2]
    rw [htot, hspd]
    match h1 : prev.timestamp, h2 : p2.timestamp with
    | some t1, some t2 =>
      by_cases hlt : t1 < t2 <;> simp [h1, h2, hlt] <;> ring_nf <;> simp [List.append_assoc]
    | some t1, none => simp [h1, h2]; ring
    | none, some t2 => simp [h1, h2]; ring
    | none, none => simp [h1, h2]; ring

/-- C4: route statistics sum haversine distance over consecutive pairs in
input order; a per-pair instantaneous speed is recorded only when both
timestamps are present with `t2 > t1`; the average is the arithmetic mean of
those instantaneous speeds (sum over count, not distance over total time);
and fewer than 2 waypoints yields all-zero figures. -/
theorem calculate_route_statistics_spec (wps : List Waypoint) :
    (wps.length < 2 → calculate_route_statistics wps =
      { total_distance_km := 0, max_speed_kmh := 0, average_speed_kmh := 0 }) ∧
    (2 ≤ wps.length → calculate_route_statistics wps =
      { total_distance_km := specTotalDistance wps
        max_speed_kmh :=
          if specSegmentSpeeds wps = [] then 0 else listMax (specSegmentSpeeds wps)
        average_speed_kmh :=
          if specSegmentSpeeds wps = [] then 0
          else (specSegmentSpeeds wps).sum / (specSegmentSpeeds wps).length }) := by
  constructor
  · intro h
    rw [calculate_route_statistics.eq_def, if_pos h]
  · intro h
    rw [calculate_route_statistics.eq_def, if_neg (by omega)]
    match wps, h with
    | w :: rest, _ =>
      dsimp only
      rw [statsAux_spec]
      simp only [zero_add, List.nil_append, List.isEmpty_iff]

/-- C4 witness: `calculate_route_statistics_spec` applied to a singleton
list (all-zero figures) and to a concrete two-waypoint list. -/
theorem calculate_route_statistics_spec_witness :
    calculate_route_statistics [⟨1, 2, some 0⟩] =
      { total_distance_km := 0, max_speed_kmh := 0, average_speed_kmh := 0 } ∧
    calculate_route_statistics [⟨1, 2, some 0⟩, ⟨3, 4, some 3600⟩] =
      { total_distance_km := specTotalDistance [⟨1, 2, some 0⟩, ⟨3, 4, some 3600⟩]
        max_speed_kmh :=
          if specSegmentSpeeds [⟨1, 2, some 0⟩, ⟨3, 4, some 3600⟩] = [] then 0
          else listMax (specSegmentSpeeds [⟨1, 2, some 0⟩, ⟨3, 4, some 3600⟩])
        average_speed_kmh :=
          if specSegmentSpeeds [⟨1, 2, some 0⟩, ⟨3, 4, some 3600⟩] = [] then 0
          else (specSegmentSpeeds [⟨1, 2, some 0⟩, ⟨3, 4, some 3600⟩]).sum /
            (specSegmentSpeeds [⟨1, 2, some 0⟩, ⟨3, 4, some 3600⟩]).length } :=
  ⟨(calculate_route_statistics_spec [⟨1, 2, some 0⟩]).1 (by simp),
   (calculate_route_statistics_spec [⟨1, 2, some 0⟩, ⟨3, 4, some 3600⟩]).2 (by simp)⟩

/-! ## Path-mode interpolation fallbacks

The zero-total-distance clause of the path interpolator is not settled as a
claim here: the source's `total_distance <= 0` branch returns `path[-1]`
(the last point), which is observably different from the path's first point
only on degenerate paths of distinct coordinate records whose haversine
distance is exactly 0, and whether such paths reach the branch is decided by
the floating-point rounding of the trigonometry (in exact real arithmetic
two north-pole records with different longitudes have distance exactly 0,
while IEEE doubles give a tiny positive total there).  The lemmas below
record the fallback behavior of the translated definitions themselves. -/

theorem atan2_zero_one : atan2 0 1 = 0 := by
  rw [atan2, if_pos (by norm_num : (0:ℝ) < 1)]
  norm_num

/-- The haversine distance from a point to itself is exactly 0 (also in the
source's float arithmetic, where every intermediate term is exactly 0). -/
theorem haversine_self (x y : ℝ) : haversine_distance_km x y x y = 0 := by
  unfold haversine_distance_km
  simp [radians, sub_self, atan2_zero_one]

/-- Fallback behavior of the path interpolator: a single-point path yields
that point with 0 distances; an empty road path is falsy under
`if road_path:` so the dispatcher falls back to linear interpolation with
haversine-derived distances (as does an absent path); and a path of 2 or
more points whose total distance is non-positive yields the path's last
point (`path[-1]`) with 0 traveled distance. -/
theorem path_interpolation_fallbacks :
    (∀ (pt : Point) (p : ℝ), position_along_path [pt] p = (pt, 0, 0)) ∧
    (∀ (w1 w2 : TWaypoint) (p : ℝ),
      segmentInterpolation w1 w2 p (some []) =
        (interpolate_position w1 w2 p,
          haversine_distance_km w1.latitude w1.longitude w2.latitude w2.longitude,
          haversine_distance_km w1.latitude w1.longitude w2.latitude w2.longitude * p) ∧
      segmentInterpolation w1 w2 p none =
        (interpolate_position w1 w2 p,
          haversine_distance_km w1.latitude w1.longitude w2.latitude w2.longitude,
          haversine_distance_km w1.latitude w1.longitude w2.latitude w2.longitude * p)) ∧
    (∀ (path : List Point) (p : ℝ), 2 ≤ path.length → pathTotalDistance path ≤ 0 →
      position_along_path path p = (path.getLastD ⟨0, 0⟩, 0, 0)) := by
  refine ⟨?_, ?_, ?_⟩
  · intro pt p
    rw [position_along_path, if_pos (by simp)]
    simp
  · intro w1 w2 p
    constructor
    · rw [segmentInterpolation]
      simp
    · rw [segmentInterpolation]
  · intro path p hlen htot
    rw [position_along_path, if_neg (by omega), if_pos htot]

/-- Concrete instances of `path_interpolation_fallbacks`: a single-point
path, a segment with an empty road path, and a degenerate two-point path of
coinciding records. -/
theorem path_interpolation_fallbacks_witness :
    position_along_path [⟨7, 8⟩] (3/4) = (⟨7, 8⟩, 0, 0) ∧
    segmentInterpolation ⟨1, 2, 0⟩ ⟨3, 4, 10⟩ (1/2) (some []) =
      (interpolate_position ⟨1, 2, 0⟩ ⟨3, 4, 10⟩ (1/2),
        haversine_distance_km 1 2 3 4, haversine_distance_km 1 2 3 4 * (1/2)) ∧
    position_along_path [⟨5, 6⟩, ⟨5, 6⟩] (1/4) = (⟨5, 6⟩, 0, 0) :=
  ⟨path_interpolation_fallbacks.1 ⟨7, 8⟩ (3/4),
   (path_interpolation_fallbacks.2.1 ⟨1, 2, 0⟩ ⟨3, 4, 10⟩ (1/2)).1,
   path_interpolation_fallbacks.2.2 [⟨5, 6⟩, ⟨5, 6⟩] (1/4) (by simp)
     (by simp [pathTotalDistance, pathSegments, ptDist, haversine_self])⟩

/-! ## C5: segment locator -/

theorem bracketAt_cons_succ (w : TWaypoint) (l : List TWaypoint) (q : ℝ) (j : ℕ) :
    bracketAt (w :: l) q (j + 1) ↔ bracketAt l q j := by
  simp [bracketAt]

theorem bracketAt_cons_zero (w1 w2 : TWaypoint) (l : List TWaypoint) (q : ℝ) :
    bracketAt (w1 :: w2 :: l) q 0 ↔ w1.ts ≤ q ∧ q ≤ w2.ts := by
  simp [bracketAt]

theorem bracketAt_short (l : List TWaypoint) (q : ℝ) (j : ℕ)
    (h : l.length < 2) : ¬ bracketAt l q j := by
  rintro ⟨u, v, hu, hv, -⟩
  obtain ⟨hlen, -⟩ := List.get?_eq_some.mp hv
  omega

/-- The scan loop returns `none` exactly when no adjacent pair brackets the
query time. -/
theorem findSegAux_none_iff (q : ℝ) :
    ∀ (l : List TWaypoint) (i0 : ℕ),
      findSegAux q l i0 = none ↔ ∀ j, ¬ bracketAt l q j
  | [], i0 => by
    simp only [findSegAux, true_iff]
    exact fun j => bracketAt_short _ q j (by simp)
  | [w], i0 => by
    simp only [findSegAux, true_iff]
    exact fun j => bracketAt_short _ q j (by simp)
  | w1 :: w2 :: rest, i0 => by
    rw [findSegAux]
    by_cases hc : w1.ts ≤ q ∧ q ≤ w2.ts
    · rw [if_pos hc]
      simp only [reduceCtorEq, false_iff, not_forall, not_not]
      exact ⟨0, (bracketAt_cons_zero w1 w2 rest q).mpr hc⟩
    · rw [if_neg hc, findSegAux_none_iff q (w2 :: rest) (i0 + 1)]
      constructor
      · intro h j
        match j with
        | 0 => exact fun hb => hc ((bracketAt_cons_zero w1 w2 rest q).mp hb)
        | j + 1 => exact fun hb => h j ((bracketAt_cons_succ w1 _ q j).mp hb)
      · intro h j
        exact fun hb => h (j + 1) ((bracketAt_cons_succ w1 _ q j).mpr hb)

/-- The scan loop returns `some (i, w1, w2, p)` exactly when, relative to the
starting index `i0`, the pair at offset `j = i - i0` is the first bracketing
pair, `w1` and `w2` are the list entries at `j` and `j + 1`, and `p` is the
clamped progress formula. -/
theorem findSegAux_some_iff (q : ℝ) :
    ∀ (l : List TWaypoint) (i0 i : ℕ) (w1 w2 : TWaypoint) (p : ℝ),
      findSegAux q l i0 = some (i, w1, w2, p) ↔
        ∃ j, i = i0 + j ∧ l.get? j = some w1 ∧ l.get? (j + 1) = some w2 ∧
          w1.ts ≤ q ∧ q ≤ w2.ts ∧ (∀ k, k < j → ¬ bracketAt l q k) ∧
          p = segProgress w1.ts w2.ts q
  | [], i0, i, w1, w2, p => by
    simp [findSegAux]
  | [w], i0, i, w1, w2, p => by
    simp [findSegAux]
  | wa :: wb :: rest, i0, i, w1, w2, p => by
    rw [findSegAux]
    by_cases hc : wa.ts ≤ q ∧ q ≤ wb.ts
    · rw [if_pos hc]
      constructor
      · intro h
        obtain ⟨hi, hw1, hw2, hp⟩ : i0 = i ∧ wa = w1 ∧ wb = w2 ∧
            segProgress wa.ts wb.ts q = p := by
          have := Option.some.inj h
          exact ⟨congrArg (fun x => x.1) this,
            congrArg (fun x => x.2.1) this,
            congrArg (fun x => x.2.2.1) this,
            congrArg (fun x => x.2.2.2) this⟩
        subst hi hw1 hw2 hp
        exact ⟨0, by omega, rfl, rfl, hc.1, hc.2, fun k hk => absurd hk (Nat.not_lt_zero k), rfl⟩
      · rintro ⟨j, hij, hj1, hj2, hle, hge, hfirst, hp⟩
        have hj0 : j = 0 := by
          by_contra hne
          exact hfirst 0 (Nat.pos_of_ne_zero hne)
            ((bracketAt_cons_zero wa wb rest q).mpr hc)
        subst hj0
        have hw1 : wa = w1 := by simpa using hj1
        have hw2 : wb = w2 := by simpa using hj2
        subst hw1 hw2
        rw [hp, hij]
        simp [Nat.add_zero]
    · rw [if_neg hc, findSegAux_some_iff q (wb :: rest) (i0 + 1) i w1 w2 p]
      constructor
      · rintro ⟨j, hij, hj1, hj2, hle, hge, hfirst, hp⟩
        refine ⟨j + 1, by omega, by simpa using hj1, by simpa using hj2, hle, hge, ?_, hp⟩
        intro k hk hb
        cases k with
        | zero => exact hc ((bracketAt_cons_zero wa wb rest q).mp hb)
        | succ k => exact hfirst k (by omega) ((bracketAt_cons_succ wa _ q k).mp hb)
      · rintro ⟨j, hij, hj1, hj2, hle, hge, hfirst, hp⟩
        cases j with
        | zero =>
          exfalso
          have hw1 : wa = w1 := by simpa using hj1
          have hw2 : wb = w2 := by simpa using hj2
          exact hc ⟨hw1 ▸ hle, hw2 ▸ hge⟩
        | succ j =>
          refine ⟨j, by omega, by simpa using hj1, by simpa using hj2, hle, hge, ?_, hp⟩
          intro k hk hb
          exact hfirst (k + 1) (by omega) ((bracketAt_cons_succ wa _ q k).mpr hb)

/-- C5: on a time-sorted waypoint list, `_find_current_segment` misses
exactly when no adjacent pair brackets the query time, and returns
`some (i, w1, w2, p)` exactly when `(w[i], w[i+1])` is the FIRST adjacent
pair with `w[i].ts <= q <= w[i+1].ts`, with
`p = (q - w[i].ts) / (w[i+1].ts - w[i].ts)` clamped to `[0, 1]` and `p = 0`
whenever the pair's total duration is non-positive. -/
theorem find_current_segment_spec (wps : List TWaypoint) (q : ℝ)
    (hs : List.Sorted tsLe wps) :
    (find_current_segment wps q = none ↔ ∀ j, ¬ bracketAt wps q j) ∧
    (∀ (i : ℕ) (w1 w2 : TWaypoint) (p : ℝ),
      find_current_segment wps q = some (i, w1, w2, p) ↔
        wps.get? i = some w1 ∧ wps.get? (i + 1) = some w2 ∧
        w1.ts ≤ q ∧ q ≤ w2.ts ∧ (∀ k, k < i → ¬ bracketAt wps q k) ∧
        p = (if w2.ts - w1.ts ≤ 0 then 0
          else max 0 (min 1 ((q - w1.ts) / (w2.ts - w1.ts))))) := by
  have hsort : sortWps wps = wps := hs.insertionSort_eq
  constructor
  · rw [find_current_segment, hsort]
    exact findSegAux_none_iff q wps 0
  · intro i w1 w2 p
    rw [find_current_segment, hsort, findSegAux_some_iff q wps 0 i w1 w2 p]
    constructor
    · rintro ⟨j, hij, hj1, hj2, hle, hge, hfirst, hp⟩
      have : j = i := by omega
      subst this
      exact ⟨hj1, hj2, hle, hge, hfirst, by rw [hp, segProgress]⟩
    · rintro ⟨hj1, hj2, hle, hge, hfirst, hp⟩
      exact ⟨i, by omega, hj1, hj2, hle, hge, hfirst, by rw [hp, segProgress]⟩

/-- C5 witness: `find_current_segment_spec` applied to a concrete sorted
two-waypoint list, locating the pair at index 0 with progress 1/2. -/
theorem find_current_segment_spec_witness :
    find_current_segment [⟨0, 0, 0⟩, ⟨1, 1, 100⟩] 50 =
      some (0, ⟨0, 0, 0⟩, ⟨1, 1, 100⟩, 1/2) := by
  have hs : List.Sorted tsLe [(⟨0, 0, 0⟩ : TWaypoint), ⟨1, 1, 100⟩] := by
    norm_num [List.sorted_cons, tsLe]
  refine ((find_current_segment_spec _ 50 hs).2 0 _ _ _).mpr
    ⟨rfl, rfl, by norm_num, by norm_num, fun k hk => absurd hk (Nat.not_lt_zero k), ?_⟩
  norm_num

/-! ## C6: stability of the sort and boundary statuses -/

theorem orderedInsert_ne_nil (a : TWaypoint) (l : List TWaypoint) :
    l.orderedInsert tsLe a ≠ [] := by
  cases l with
  | nil => simp
  | cons h t =>
    rw [List.orderedInsert]
    split <;> simp

/-- The head of an ordered insertion: the inserted element if it is `≤` the
old head, the old head otherwise. -/
theorem head?_orderedInsert (a : TWaypoint) (l : List TWaypoint) :
    (l.orderedInsert tsLe a).head? =
      some (match l.head? with
        | none => a
        | some h => if a.ts ≤ h.ts then a else h) := by
  cases l with
  | nil => rfl
  | cons h t =>
    by_cases hc : a.ts ≤ h.ts
    · have hc' : tsLe a h := hc
      simp only [List.orderedInsert, if_pos hc', List.head?_cons]
      rw [if_pos hc]
    · have hc' : ¬ tsLe a h := hc
      simp only [List.orderedInsert, if_neg hc', List.head?_cons]
      rw [if_neg hc]

/-- Stability of the sort at the front: the head of the stable sort is the
leftmost earliest waypoint. -/
theorem head?_sortWps : ∀ l : List TWaypoint, (sortWps l).head? = firstEarliest l
  | [] => rfl
  | w :: t => by
    have ih := head?_sortWps t
    rw [sortWps] at ih
    rw [sortWps, List.insertionSort, head?_orderedInsert, ih, firstEarliest]
    cases firstEarliest t with
    | none => rfl
    | some m =>
      dsimp only
      by_cases hc : w.ts ≤ m.ts
      · rw [if_pos hc, if_pos hc]
      · rw [if_neg hc, if_neg hc]

/-- The last element of an ordered insertion into a sorted list: the inserted
element if it is strictly later than the old last element, the old last
element otherwise. -/
theorem getLast?_orderedInsert :
    ∀ (l : List TWaypoint), List.Sorted tsLe l → ∀ a : TWaypoint,
      (l.orderedInsert tsLe a).getLast? =
        some (match l.getLast? with
          | none => a
          | some m => if m.ts < a.ts then a else m)
  | [], _, a => rfl
  | h :: t, hs, a => by
    rw [List.orderedInsert]
    by_cases hc : tsLe a h
    · rw [if_pos hc]
      obtain ⟨m, hm⟩ : ∃ m, (h :: t).getLast? = some m := by
        cases t with
        | nil => exact ⟨h, rfl⟩
        | cons x xs =>
          refine ⟨(x :: xs).getLast (by simp), ?_⟩
          rw [List.getLast?_cons_cons]
          exact List.getLast?_eq_getLast _ (by simp)
      have hmem : m ∈ h :: t := List.mem_of_mem_getLast? (by simp [hm])
      have hhm : h.ts ≤ m.ts := by
        rcases List.mem_cons.mp hmem with rfl | hmt
        · exact le_rfl
        · exact List.rel_of_sorted_cons hs m hmt
      have hne : ¬ m.ts < a.ts := not_lt.mpr (le_trans hc hhm)
      rw [List.getLast?_cons_cons, hm]
      dsimp only
      rw [if_neg hne]
    · rw [if_neg hc]
      have hlt : h.ts < a.ts := lt_of_not_le hc
      cases t with
      | nil =>
        simp only [List.orderedInsert_nil]
        rw [List.getLast?_cons_cons]
        dsimp only [List.getLast?_singleton]
        rw [if_pos hlt]
      | cons x xs =>
        have hx := getLast?_orderedInsert (x :: xs) hs.tail a
        obtain ⟨y, ys, hy⟩ : ∃ y ys, (x :: xs).orderedInsert tsLe a = y :: ys := by
          cases he : (x :: xs).orderedInsert tsLe a with
          | nil => exact absurd he (orderedInsert_ne_nil a _)
          | cons y ys => exact ⟨y, ys, rfl⟩
        rw [hy, List.getLast?_cons_cons, ← hy, hx]
        rw [show (h :: x :: xs).getLast? = (x :: xs).getLast? from List.getLast?_cons_cons]

/-- Stability of the sort at the back: the last element of the stable sort is
the rightmost latest waypoint. -/
theorem getLast?_sortWps : ∀ l : List TWaypoint, (sortWps l).getLast? = lastLatest l
  | [] => rfl
  | w :: t => by
    have ih := getLast?_sortWps t
    rw [sortWps] at ih
    rw [sortWps, List.insertionSort,
      getLast?_orderedInsert _ (List.sorted_insertionSort tsLe t) w, ih, lastLatest]
    cases lastLatest t with
    | none => rfl
    | some m =>
      dsimp only
      by_cases hc : m.ts < w.ts
      · rw [if_pos hc, if_pos hc]
      · rw [if_neg hc, if_neg hc]

/-- `firstEarliest` selects a member of the list whose timestamp is minimal
among all members. -/
theorem firstEarliest_mem_min :
    ∀ l : List TWaypoint, l ≠ [] →
      ∃ m, firstEarliest l = some m ∧ m ∈ l ∧ ∀ v ∈ l, m.ts ≤ v.ts
  | [], h => absurd rfl h
  | w :: t, _ => by
    cases ht : t with
    | nil =>
      refine ⟨w, by simp [firstEarliest], by simp, ?_⟩
      intro v hv
      rw [List.mem_singleton.mp hv]
    | cons x xs =>
      obtain ⟨m, hm, hmem, hmin⟩ := firstEarliest_mem_min t (by simp [ht])
      rw [← ht]
      by_cases hc : w.ts ≤ m.ts
      · refine ⟨w, ?_, by simp, ?_⟩
        · rw [firstEarliest, hm]
          dsimp only
          rw [if_pos hc]
        · intro v hv
          rcases List.mem_cons.mp hv with rfl | hvt
          · exact le_rfl
          · exact le_trans hc (hmin v hvt)
      · refine ⟨m, ?_, List.mem_cons_of_mem w hmem, ?_⟩
        · rw [firstEarliest, hm]
          dsimp only
          rw [if_neg hc]
        · intro v hv
          rcases List.mem_cons.mp hv with rfl | hvt
          · exact le_of_not_le hc
          · exact hmin v hvt

/-- `lastLatest` selects a member of the list whose timestamp is maximal
among all members. -/
theorem lastLatest_mem_max :
    ∀ l : List TWaypoint, l ≠ [] →
      ∃ m, lastLatest l = some m ∧ m ∈ l ∧ ∀ v ∈ l, v.ts ≤ m.ts
  | [], h => absurd rfl h
  | w :: t, _ => by
    cases ht : t with
    | nil =>
      refine ⟨w, by simp [lastLatest], by simp, ?_⟩
      intro v hv
      rw [List.mem_singleton.mp hv]
    | cons x xs =>
      obtain ⟨m, hm, hmem, hmax⟩ := lastLatest_mem_max t (by simp [ht])
      rw [← ht]
      by_cases hc : m.ts < w.ts
      · refine ⟨w, ?_, by simp, ?_⟩
        · rw [lastLatest, hm]
          dsimp only
          rw [if_pos hc]
        · intro v hv
          rcases List.mem_cons.mp hv with rfl | hvt
          · exact le_rfl
          · exact le_trans (hmax v hvt) (le_of_lt hc)
      · refine ⟨m, ?_, List.mem_cons_of_mem w hmem, ?_⟩
        · rw [lastLatest, hm]
          dsimp only
          rw [if_neg hc]
        · intro v hv
          rcases List.mem_cons.mp hv with rfl | hvt
          · exact not_lt.mp hc
          · exact hmax v hvt

/-- C6: `simulate_position` answers `inactive` with no position when the
waypoint list is empty or every waypoint lacks a timestamp; `not_started`
with exactly the first (leftmost earliest-timestamp) waypoint's coordinate
when the query time strictly precedes every timestamp; and `completed` with
exactly the last (rightmost latest-timestamp) waypoint's coordinate when the
query time strictly follows every timestamp. -/
theorem simulate_position_boundary (wps : List Waypoint) (q : ℝ)
    (roadPath : Option (List Point)) :
    ((wps = [] ∨ ∀ w ∈ wps, w.timestamp = none) →
      simulate_position wps q roadPath = { status := "inactive" }) ∧
    (keptWaypoints wps ≠ [] → (∀ w ∈ keptWaypoints wps, q < w.ts) →
      ∃ m, firstEarliest (keptWaypoints wps) = some m ∧ m ∈ keptWaypoints wps ∧
        (∀ v ∈ keptWaypoints wps, m.ts ≤ v.ts) ∧
        simulate_position wps q roadPath =
          { status := "not_started", position := some ⟨m.latitude, m.longitude⟩ }) ∧
    (keptWaypoints wps ≠ [] → (∀ w ∈ keptWaypoints wps, w.ts < q) →
      ∃ m, lastLatest (keptWaypoints wps) = some m ∧ m ∈ keptWaypoints wps ∧
        (∀ v ∈ keptWaypoints wps, v.ts ≤ m.ts) ∧
        simulate_position wps q roadPath =
          { status := "completed", position := some ⟨m.latitude, m.longitude⟩ }) := by
  refine ⟨?_, ?_, ?_⟩
  · intro h
    have hk : keptWaypoints wps = [] := by
      rcases h with rfl | hall
      · rfl
      · rw [keptWaypoints, List.filterMap_eq_nil_iff]
        intro w hw
        rw [hall w hw]
        rfl
    rw [simulate_position, hk]
  · intro hne hq
    obtain ⟨m, hfe, hmem, hmin⟩ := firstEarliest_mem_min _ hne
    refine ⟨m, hfe, hmem, hmin, ?_⟩
    obtain ⟨k, ks, hk⟩ : ∃ k ks, keptWaypoints wps = k :: ks := by
      cases hkk : keptWaypoints wps with
      | nil => exact absurd hkk hne
      | cons k ks => exact ⟨k, ks, rfl⟩
    have hhead : (sortWps (k :: ks)).head? = some m := by
      rw [head?_sortWps, ← hk, hfe]
    have hfirst : (sortWps (k :: ks)).headD ⟨0, 0, 0⟩ = m := by
      rw [List.headD_eq_head?, hhead]
      rfl
    rw [simulate_position, hk]
    dsimp only
    rw [simulateSorted.eq_def]
    simp only [hfirst]
    rw [if_pos (hq m hmem)]
  · intro hne hq
    obtain ⟨m, hfe, hmem, hmax⟩ := lastLatest_mem_max _ hne
    obtain ⟨mf, hff, hfmem, -⟩ := firstEarliest_mem_min _ hne
    refine ⟨m, hfe, hmem, hmax, ?_⟩
    obtain ⟨k, ks, hk⟩ : ∃ k ks, keptWaypoints wps = k :: ks := by
      cases hkk : keptWaypoints wps with
      | nil => exact absurd hkk hne
      | cons k ks => exact ⟨k, ks, rfl⟩
    have hhead : (sortWps (k :: ks)).head? = some mf := by
      rw [head?_sortWps, ← hk, hff]
    have hfirst : (sortWps (k :: ks)).headD ⟨0, 0, 0⟩ = mf := by
      rw [List.headD_eq_head?, hhead]
      rfl
    have hlast? : (sortWps (k :: ks)).getLast? = some m := by
      rw [getLast?_sortWps, ← hk, hfe]
    have hlast : (sortWps (k :: ks)).getLastD ⟨0, 0, 0⟩ = m := by
      rw [List.getLastD_eq_getLast?, hlast?]
      rfl
    rw [simulate_position, hk]
    dsimp only
    rw [simulateSorted.eq_def]
    simp only [hfirst, hlast]
    rw [if_neg (not_lt.mpr (le_of_lt (hq mf hfmem))), if_pos (hq m hmem)]

/-- C6 witness: `simulate_position_boundary` applied to a concrete
single-waypoint list queried before its timestamp (`not_started` at the
waypoint's coordinate) and after it (`completed`), plus the inactive case on
a timestamp-less list. -/
theorem simulate_position_boundary_witness :
    simulate_position [⟨1, 2, some 100⟩] 50 none =
      { status := "not_started", position := some ⟨1, 2⟩ } ∧
    simulate_position [⟨1, 2, some 100⟩] 200 none =
      { status := "completed", position := some ⟨1, 2⟩ } ∧
    simulate_position [⟨1, 2, none⟩] 50 none = { status := "inactive" } := by
  have hk : keptWaypoints [(⟨1, 2, some 100⟩ : Waypoint)] = [⟨1, 2, 100⟩] := rfl
  refine ⟨?_, ?_, ?_⟩
  · obtain ⟨m, hm, -, -, hres⟩ :=
      (simulate_position_boundary [⟨1, 2, some 100⟩] 50 none).2.1
        (by rw [hk]; exact List.cons_ne_nil _ _)
        (by
          rw [hk]
          intro w hw
          rw [List.mem_singleton.mp hw]
          norm_num)
    have hfe : firstEarliest [(⟨1, 2, 100⟩ : TWaypoint)] = some ⟨1, 2, 100⟩ := by
      simp [firstEarliest]
    rw [hk] at hm
    have hm' : (⟨1, 2, 100⟩ : TWaypoint) = m := Option.some.inj (hfe.symm.trans hm)
    rw [← hm'] at hres
    exact hres
  · obtain ⟨m, hm, -, -, hres⟩ :=
      (simulate_position_boundary [⟨1, 2, some 100⟩] 200 none).2.2
        (by rw [hk]; exact List.cons_ne_nil _ _)
        (by
          rw [hk]
          intro w hw
          rw [List.mem_singleton.mp hw]
          norm_num)
    have hfe : lastLatest [(⟨1, 2, 100⟩ : TWaypoint)] = some ⟨1, 2, 100⟩ := by
      simp [lastLatest]
    rw [hk] at hm
    have hm' : (⟨1, 2, 100⟩ : TWaypoint) = m := Option.some.inj (hfe.symm.trans hm)
    rw [← hm'] at hres
    exact hres
  · exact (simulate_position_boundary [⟨1, 2, none⟩] 50 none).1
      (Or.inr (by intro w hw; rw [List.mem_singleton.mp hw]))

/-! ## C10: route-progress invariants of the moving/parked response -/

theorem segProgress_bounds (t1 t2 q : ℝ) :
    0 ≤ segProgress t1 t2 q ∧ segProgress t1 t2 q ≤ 1 := by
  unfold segProgress
  split_ifs
  · exact ⟨le_rfl, zero_le_one⟩
  · exact ⟨le_max_left 0 _, max_le zero_le_one (min_le_left 1 _)⟩

theorem roundHalfEven_cases (z : ℝ) :
    roundHalfEven z = ⌊z⌋ ∨ (roundHalfEven z = ⌊z⌋ + 1 ∧ 1/2 ≤ Int.fract z) := by
  unfold roundHalfEven
  split_ifs with h1 h2 h3
  · exact Or.inl rfl
  · exact Or.inr ⟨rfl, le_of_lt h2⟩
  · exact Or.inl rfl
  · exact Or.inr ⟨rfl, le_of_not_lt h1⟩

theorem roundHalfEven_bounds (z : ℝ) (m : ℤ) (h0 : 0 ≤ z) (hm : z ≤ m) :
    0 ≤ roundHalfEven z ∧ roundHalfEven z ≤ m := by
  have hfl0 : 0 ≤ ⌊z⌋ := Int.floor_nonneg.mpr h0
  have hflm : ⌊z⌋ ≤ m := by
    have := Int.floor_le_floor hm
    rwa [Int.floor_intCast] at this
  rcases roundHalfEven_cases z with he | ⟨he, hfr⟩
  · rw [he]
    exact ⟨hfl0, hflm⟩
  · rw [he]
    refine ⟨by omega, ?_⟩
    have hz : (⌊z⌋ : ℝ) = z - Int.fract z := by
      rw [Int.fract]
      ring
    have h1 : (⌊z⌋ : ℝ) < m := by
      rw [hz]
      linarith
    have h2 : ⌊z⌋ < m := by exact_mod_cast h1
    omega

theorem pyRound2_bounds (x : ℝ) (h0 : 0 ≤ x) (h1 : x ≤ 100) :
    0 ≤ pyRound2 x ∧ pyRound2 x ≤ 100 := by
  obtain ⟨hl, hr⟩ := roundHalfEven_bounds (100 * x) 10000 (by positivity)
    (by push_cast; linarith)
  unfold pyRound2
  constructor
  · exact div_nonneg (by exact_mod_cast hl) (by norm_num)
  · rw [div_le_iff₀ (by norm_num : (0:ℝ) < 100)]
    have : ((roundHalfEven (100 * x) : ℤ) : ℝ) ≤ ((10000 : ℤ) : ℝ) := by
      exact_mod_cast hr
    push_cast at this
    linarith

theorem keptWaypoints_length (l : List Waypoint) :
    (keptWaypoints l).length = l.countP (fun w => w.timestamp.isSome) := by
  induction l with
  | nil => rfl
  | cons w t ih =>
    rw [keptWaypoints] at ih ⊢
    rw [List.filterMap_cons]
    cases hw : w.timestamp with
    | none => simp [List.countP_cons, hw, ih]
    | some t0 => simp [List.countP_cons, hw, ih]

/-- C10: whenever `simulate_position` answers `moving` or `parked`, the
route-progress block satisfies `completed + remaining = total`, `total` is
the number of input waypoints carrying a timestamp, and the (rounded)
overall progress percentage lies in `[0, 100]`. -/
theorem simulate_position_progress_invariants (wps : List Waypoint) (q : ℝ)
    (roadPath : Option (List Point))
    (h : (simulate_position wps q roadPath).status = "moving" ∨
      (simulate_position wps q roadPath).status = "parked") :
    ∃ rp, (simulate_position wps q roadPath).route_progress = some rp ∧
      (rp.completed_waypoints : ℤ) + rp.remaining_waypoints = (rp.total_waypoints : ℤ) ∧
      rp.total_waypoints = wps.countP (fun w => w.timestamp.isSome) ∧
      0 ≤ rp.overall_progress_percent ∧ rp.overall_progress_percent ≤ 100 := by
  cases hk : keptWaypoints wps with
  | nil =>
    rw [simulate_position, hk] at h
    dsimp only at h
    exact absurd h (by decide)
  | cons k ks =>
    rw [simulate_position, hk] at h ⊢
    dsimp only at h ⊢
    have hsorted : List.Sorted tsLe (sortWps (k :: ks)) := by
      rw [sortWps]
      exact List.sorted_insertionSort tsLe (k :: ks)
    have hlen_eq : (sortWps (k :: ks)).length = (keptWaypoints wps).length := by
      rw [sortWps, List.length_insertionSort, hk]
    simp only [simulateSorted.eq_def] at h ⊢
    split_ifs at h ⊢ with h1 h2
    · dsimp only at h
      exact absurd h (by decide)
    · dsimp only at h
      exact absurd h (by decide)
    · cases hseg : find_current_segment (sortWps (k :: ks)) q with
      | none =>
        rw [hseg] at h
        dsimp only at h
        exact absurd h (by decide)
      | some tup =>
        obtain ⟨idx, w1, w2, progress⟩ := tup
        rw [hseg] at h
        dsimp only at h ⊢
        have hss : sortWps (sortWps (k :: ks)) = sortWps (k :: ks) := by
          rw [show sortWps (sortWps (k :: ks)) = (sortWps (k :: ks)).insertionSort tsLe
            from rfl]
          exact hsorted.insertionSort_eq
        rw [find_current_segment, hss] at hseg
        obtain ⟨j, hij, hj1, hj2, -, -, -, hp⟩ :=
          (findSegAux_some_iff q (sortWps (k :: ks)) 0 idx w1 w2 progress).mp hseg
        obtain ⟨hjlt, -⟩ := List.get?_eq_some.mp hj2
        have hidx : idx = j := by omega
        subst hidx
        have hidxlt : idx + 1 < (sortWps (k :: ks)).length := hjlt
        obtain ⟨hp0, hp1⟩ : 0 ≤ progress ∧ progress ≤ 1 := by
          rw [hp]
          exact segProgress_bounds w1.ts w2.ts q
        simp only [movingOrParked.eq_def]
        refine ⟨_, rfl, ?_, ?_, ?_⟩
        · dsimp only
          omega
        · dsimp only
          rw [hlen_eq, keptWaypoints_length]
        · dsimp only
          set n := (sortWps (k :: ks)).length with hn
          have hn2 : 2 ≤ n := by omega
          have hmax : max 1 (n - 1) = n - 1 := by omega
          have hden : ((max 1 (n - 1) : ℕ) : ℝ) = (n : ℝ) - 1 := by
            rw [hmax]
            push_cast [Nat.cast_sub (by omega : 1 ≤ n)]
            ring
          have hdenpos : (0 : ℝ) < ((max 1 (n - 1) : ℕ) : ℝ) := by
            rw [hden]
            have h2r : (2 : ℝ) ≤ (n : ℝ) := by exact_mod_cast hn2
            linarith
          have hnum0 : 0 ≤ (idx : ℝ) + progress := by positivity
          have hnum1 : (idx : ℝ) + progress ≤ (n : ℝ) - 1 := by
            have hi2 : idx ≤ n - 2 := by omega
            have h2n : (idx : ℝ) ≤ ((n - 2 : ℕ) : ℝ) := by exact_mod_cast hi2
            have hc2 : ((n - 2 : ℕ) : ℝ) = (n : ℝ) - 2 := by
              push_cast [Nat.cast_sub (by omega : 2 ≤ n)]
              ring
            linarith
          have hfrac0 : 0 ≤ ((idx : ℝ) + progress) / ((max 1 (n - 1) : ℕ) : ℝ) :=
            div_nonneg hnum0 (le_of_lt hdenpos)
          have hfrac1 : ((idx : ℝ) + progress) / ((max 1 (n - 1) : ℕ) : ℝ) ≤ 1 := by
            rw [div_le_one hdenpos, hden]
            linarith
          exact pyRound2_bounds _ (by linarith) (by nlinarith)

/-- The moving/parked branch always reports one of those two statuses. -/
theorem movingOrParked_status (sorted : List TWaypoint) (idx : ℕ) (w1 w2 : TWaypoint)
    (progress : ℝ) (roadPath : Option (List Point)) :
    (movingOrParked sorted idx w1 w2 progress roadPath).status = "moving" ∨
    (movingOrParked sorted idx w1 w2 progress roadPath).status = "parked" := by
  simp only [movingOrParked.eq_def]
  split_ifs <;> simp

/-- C10 witness: `simulate_position_progress_invariants` applied to a
concrete two-waypoint route queried mid-segment. -/
theorem simulate_position_progress_witness :
    ∃ rp,
      (simulate_position [⟨0, 0, some 0⟩, ⟨1, 1, some 100⟩] 50 none).route_progress
        = some rp ∧
      (rp.completed_waypoints : ℤ) + rp.remaining_waypoints = (rp.total_waypoints : ℤ) ∧
      rp.total_waypoints = 2 ∧
      0 ≤ rp.overall_progress_percent ∧ rp.overall_progress_percent ≤ 100 := by
  have hk : keptWaypoints [(⟨0, 0, some 0⟩ : Waypoint), ⟨1, 1, some 100⟩]
      = [⟨0, 0, 0⟩, ⟨1, 1, 100⟩] := rfl
  have hse : sortWps [(⟨0, 0, 0⟩ : TWaypoint), ⟨1, 1, 100⟩]
      = [⟨0, 0, 0⟩, ⟨1, 1, 100⟩] := by
    rw [sortWps]
    apply List.Sorted.insertionSort_eq
    norm_num [List.sorted_cons, tsLe]
  have hfseg : find_current_segment [(⟨0, 0, 0⟩ : TWaypoint), ⟨1, 1, 100⟩] 50
      = some (0, ⟨0, 0, 0⟩, ⟨1, 1, 100⟩, segProgress 0 100 50) := by
    rw [find_current_segment, hse, findSegAux]
    rw [if_pos (And.intro (by norm_num : ((0:ℝ)) ≤ 50) (by norm_num : (50:ℝ) ≤ 100))]
  have hstat :
      (simulate_position [⟨0, 0, some 0⟩, ⟨1, 1, some 100⟩] 50 none).status = "moving" ∨
      (simulate_position [⟨0, 0, some 0⟩, ⟨1, 1, some 100⟩] 50 none).status = "parked" := by
    rw [simulate_position, hk]
    dsimp only
    rw [hse]
    simp only [simulateSorted.eq_def]
    split_ifs with hA hB
    · exfalso
      norm_num at hA
    · exfalso
      norm_num at hB
    · rw [hfseg]
      exact movingOrParked_status _ _ _ _ _ _
  obtain ⟨rp, h1, h2, h3, h4, h5⟩ :=
    simulate_position_progress_invariants [⟨0, 0, some 0⟩, ⟨1, 1, some 100⟩] 50 none hstat
  refine ⟨rp, h1, h2, ?_, h4, h5⟩
  rw [h3]
  rfl

end GpsTracker
